import Mathlib

/-!
Verification of the credential-protection and rate-limiting core of the
Open WebUI browser extension (`background.js`).

The embedding models:
* `getEncryptionKey`, `encryptApiKey`, `decryptApiKey` — AES-GCM secret
  encryption with PBKDF2 key derivation and legacy plaintext fallback;
* `checkRateLimit` — the sliding-window rate limiter over
  `chrome.storage.local`.

Web-platform primitives (`crypto.subtle`, `TextEncoder`/`TextDecoder`,
`btoa`/`atob`) are not part of the repository; they are modelled as an
abstract `CryptoPlatform` structure whose fields carry exactly the laws
those primitives are documented to satisfy (round trips, output lengths,
byte ranges, base64 alphabet).  A concrete executable instance
(`toyPlatform`) witnesses that the laws are satisfiable and lets the
theorems be evaluated on concrete inputs.
-/

namespace Extension

/-- One character of the base64 alphabet as accepted by the backward
compatibility regex `/^[A-Za-z0-9+\/=]+$/` in `decryptApiKey`
(`background.js` line 102). -/
def isBase64Char (c : Char) : Bool :=
  (('A' ≤ c && c ≤ 'Z') || ('a' ≤ c && c ≤ 'z') || ('0' ≤ c && c ≤ '9')
    || c = '+' || c = '/' || c = '=')

/-- Abstract model of the Web-platform primitives used by `background.js`:
PBKDF2 key derivation, AES-GCM authenticated encryption, UTF-8 text
encoding and base64 binary-string encoding.  Bytes are `Nat`s below 256.
The laws are the documented behaviour of the platform:
* AES-GCM decryption inverts encryption under the same key and IV;
* the AES-GCM ciphertext is the message plus a 16-byte auth tag;
* `TextDecoder` inverts `TextEncoder`;
* `atob` inverts `btoa`, whose output uses only the base64 alphabet and
  is at least as long as its input. -/
structure CryptoPlatform (Key : Type) where
  deriveKey : String → String → Nat → Key
  gcmEncrypt : Key → List Nat → List Nat → List Nat
  gcmDecrypt : Key → List Nat → List Nat → Option (List Nat)
  textEncode : String → List Nat
  textDecode : List Nat → String
  btoa : List Nat → String
  atob : String → Option (List Nat)
  gcm_roundtrip : ∀ k iv m, (∀ b ∈ m, b < 256) →
    gcmDecrypt k iv (gcmEncrypt k iv m) = some m
  gcm_length : ∀ k iv m, (gcmEncrypt k iv m).length = m.length + 16
  gcm_bytes : ∀ k iv m, ∀ b ∈ gcmEncrypt k iv m, b < 256
  text_roundtrip : ∀ s, textDecode (textEncode s) = s
  text_bytes : ∀ s, ∀ b ∈ textEncode s, b < 256
  b64_roundtrip : ∀ bs, (∀ b ∈ bs, b < 256) → atob (btoa bs) = some bs
  b64_alphabet : ∀ bs, ∀ c ∈ (btoa bs).data, isBase64Char c = true
  b64_length_ge : ∀ bs, bs.length ≤ (btoa bs).length

variable {Key : Type}

/-- `getEncryptionKey` (`background.js` lines 16–55): derive a 256-bit
AES-GCM key from the extension id concatenated with a fixed password
suffix, a fixed salt, and 100000 PBKDF2-SHA-256 iterations. -/
def getEncryptionKey (C : CryptoPlatform Key) (extensionId : String) : Key :=
  C.deriveKey (extensionId ++ "open-webui-extension-salt")
    "open-webui-api-key-encryption-salt-v1" 100000

/-- `encryptApiKey` (`background.js` lines 58–90).  The fresh random
12-byte IV produced by `crypto.getRandomValues` is passed explicitly.
A falsy (empty) input throws, modelled as `Except.error`. -/
def encryptApiKey (C : CryptoPlatform Key) (extensionId : String)
    (iv : List Nat) (apiKey : String) : Except String String :=
  if apiKey = "" then
    Except.error "Invalid API key for encryption"
  else
    let key := getEncryptionKey C extensionId
    let data := C.textEncode apiKey
    let encrypted := C.gcmEncrypt key iv data
    let combined := iv ++ encrypted
    Except.ok (C.btoa combined)

/-- `decryptApiKey` (`background.js` lines 93–138).  Every failure path
(falsy input, base64 decode error, AES-GCM authentication failure) is
caught and yields the input unchanged; the shape heuristic (length `< 20`
or a character outside the base64 alphabet) short-circuits to the input
without touching the crypto layer. -/
def decryptApiKey (C : CryptoPlatform Key) (extensionId : String)
    (stored : String) : String :=
  if stored = "" then
    stored
  else if stored.length < 20 || !(stored.data.all isBase64Char) then
    stored
  else
    match C.atob stored with
    | none => stored
    | some combined =>
      let iv := combined.take 12
      let encrypted := combined.drop 12
      let key := getEncryptionKey C extensionId
      match C.gcmDecrypt key iv encrypted with
      | none => stored
      | some decrypted => C.textDecode decrypted

/-- One entry of `RATE_LIMITS` (`background.js` lines 186–190):
a call cap and a window duration in milliseconds. -/
structure Limit where
  max : Nat
  window : Nat
deriving DecidableEq

/-- `RATE_LIMITS[actionType] || RATE_LIMITS.general`
(`background.js` lines 186–195). -/
def getLimit (actionType : String) : Limit :=
  if actionType = "chatCompletion" then ⟨10, 60000⟩
  else if actionType = "fetchModels" then ⟨5, 60000⟩
  else ⟨20, 60000⟩

/-- The persisted `rateLimit` record: per action type, the list of
recorded call timestamps (milliseconds since epoch).  A category never
written reads as the empty list (`rateLimitData[actionType] || []`). -/
def RateData : Type := String → List Nat

/-- A freshly initialised store (`stored.rateLimit || {}`). -/
def emptyRateData : RateData := fun _ => []

/-- The result value of `checkRateLimit`: `{allowed: true}` or
`{allowed: false, waitTime: seconds}`. -/
structure CheckResult where
  allowed : Bool
  waitTime : Option Nat
deriving DecidableEq

/-- The body of `checkRateLimit` (`background.js` lines 198–224) with the
storage read and write made explicit: from the current time and the
stored record, the returned decision and the record after the call.
Timestamps outside the window are filtered out before the count is
compared to the cap; a rejected call returns the record unchanged
(no `chrome.storage.local.set` happens on that path); an allowed call
appends `now` to the filtered list for its category.
`Math.ceil(waitTime / 1000)` on a nonnegative integer is
`(waitTime + 999) / 1000` in `Nat`. -/
def checkRateLimit (now : Nat) (actionType : String) (data : RateData) :
    CheckResult × RateData :=
  let limit := getLimit actionType
  let requests := (data actionType).filter (fun t => now - t < limit.window)
  if limit.max ≤ requests.length then
    let oldestRequest := requests.headD 0
    let waitTime := limit.window - (now - oldestRequest)
    (⟨false, some ((waitTime + 999) / 1000)⟩, data)
  else
    (⟨true, none⟩,
      fun a => if a = actionType then requests ++ [now] else data a)

/-- `checkRateLimit` with its `try`/`catch` (`background.js` lines
197–229): `getResult = none` models `chrome.storage.local.get` throwing,
`setOk = false` models `chrome.storage.local.set` throwing.  Either
error is caught and the call returns `{allowed: true}`; a failed write
leaves the stored record unchanged. -/
def checkRateLimitStore (now : Nat) (actionType : String)
    (getResult : Option RateData) (setOk : Bool) :
    CheckResult × Option RateData :=
  match getResult with
  | none => (⟨true, none⟩, none)
  | some data =>
    let r := checkRateLimit now actionType data
    (r.1, some (if setOk then r.2 else data))

/-- A sequence of `checkRateLimit` calls at the given times, threading
the stored record through. -/
def checkSeq (times : List Nat) (actionType : String) (data : RateData) :
    List CheckResult × RateData :=
  match times with
  | [] => ([], data)
  | t :: ts =>
    let r := checkRateLimit t actionType data
    let rest := checkSeq ts actionType r.2
    (r.1 :: rest.1, rest.2)

/-! ### A concrete executable platform instance

The abstract `CryptoPlatform` laws are realised by a small executable
instance: text is encoded as four little-endian bytes per code point,
base64 as two alphabet characters per byte, and the cipher as a byte-wise
shift with a 16-byte recomputable tag.  This instance exists so the
theorems below can be evaluated on concrete inputs; the theorems
themselves hold for every platform satisfying the laws. -/

namespace Toy

/-- Four little-endian bytes of a character's code point. -/
def encodeChar (c : Char) : List Nat :=
  [c.toNat % 256, c.toNat / 256 % 256, c.toNat / 65536 % 256,
    c.toNat / 16777216 % 256]

/-- Text encoding: concatenate the bytes of each character. -/
def textEncode (s : String) : List Nat :=
  s.data.flatMap encodeChar

/-- Decode groups of four bytes back into characters. -/
def decodeChars : List Nat → List Char
  | b0 :: b1 :: b2 :: b3 :: rest =>
    Char.ofNat (b0 + 256 * b1 + 65536 * b2 + 16777216 * b3) ::
      decodeChars rest
  | _ => []

/-- Text decoding. -/
def textDecode (bs : List Nat) : String := String.mk (decodeChars bs)

theorem toNat_lt_of_char (c : Char) : c.toNat < 1114112 := by
  show c.val.toNat < 1114112
  rcases c.valid with h | ⟨_, h⟩ <;> omega

theorem decodeChars_encodeChar (c : Char) (l : List Nat) :
    decodeChars (encodeChar c ++ l) = c :: decodeChars l := by
  have hc := toNat_lt_of_char c
  have : c.toNat % 256 + 256 * (c.toNat / 256 % 256) +
      65536 * (c.toNat / 65536 % 256) +
      16777216 * (c.toNat / 16777216 % 256) = c.toNat := by omega
  simp [encodeChar, decodeChars, this, Char.ofNat_toNat]

theorem textDecode_textEncode (s : String) :
    textDecode (textEncode s) = s := by
  suffices h : decodeChars (s.data.flatMap encodeChar) = s.data by
    show String.mk (decodeChars (s.data.flatMap encodeChar)) = s
    rw [h]
  induction s.data with
  | nil => rfl
  | cons c cs ih => simp [List.flatMap_cons, decodeChars_encodeChar, ih]

theorem textEncode_bytes (s : String) : ∀ b ∈ textEncode s, b < 256 := by
  intro b hb
  simp only [textEncode, List.mem_flatMap] at hb
  obtain ⟨c, _, hc⟩ := hb
  simp only [encodeChar, List.mem_cons, List.not_mem_nil, or_false] at hc
  rcases hc with h | h | h | h <;> omega

/-- The 64-character base64 alphabet table. -/
def b64Table : List Char :=
  "ABCDEFGHIJKLMNOPQRSTUVWXYZabcdefghijklmnopqrstuvwxyz0123456789+/".data

/-- Alphabet character of a six-bit value. -/
def b64Char (n : Nat) : Char := b64Table.getD n 'A'

/-- Six-bit value of an alphabet character, `none` outside the alphabet. -/
def sixVal (c : Char) : Option Nat := b64Table.indexOf? c

/-- Binary-to-text encoding: two alphabet characters per byte. -/
def btoa (bs : List Nat) : String :=
  String.mk (bs.flatMap (fun b => [b64Char (b / 64), b64Char (b % 64)]))

/-- Decode pairs of alphabet characters back into bytes. -/
def decodeB64 : List Char → Option (List Nat)
  | [] => some []
  | c1 :: c2 :: rest =>
    match sixVal c1, sixVal c2, decodeB64 rest with
    | some x, some y, some r => some ((64 * x + y) :: r)
    | _, _, _ => none
  | _ => none

/-- Text-to-binary decoding, failing on malformed input. -/
def atob (s : String) : Option (List Nat) := decodeB64 s.data

theorem sixVal_b64Char : ∀ n < 64, sixVal (b64Char n) = some n := by decide

theorem isBase64Char_b64Char (n : Nat) :
    Extension.isBase64Char (b64Char n) = true := by
  by_cases h : n < 64
  · revert n
    decide
  · have hlen : b64Table.length = 64 := by decide
    have : b64Table.length ≤ n := by omega
    rw [b64Char, List.getD_eq_default _ _ this]
    decide

theorem decodeB64_pairs (bs : List Nat) (h : ∀ b ∈ bs, b < 256) :
    decodeB64 (bs.flatMap fun b => [b64Char (b / 64), b64Char (b % 64)]) =
      some bs := by
  induction bs with
  | nil => rfl
  | cons b rest ih =>
    have hb : b < 256 := h b (by simp)
    have h1 : b / 64 < 64 := by omega
    have h2 : b % 64 < 64 := by omega
    have ihr := ih (fun x hx => h x (by simp [hx]))
    have hsplit : ((b :: rest).flatMap fun b =>
        [b64Char (b / 64), b64Char (b % 64)]) =
        b64Char (b / 64) :: b64Char (b % 64) ::
          (rest.flatMap fun b => [b64Char (b / 64), b64Char (b % 64)]) := by
      simp [List.flatMap_cons]
    rw [hsplit]
    have hval : 64 * (b / 64) + b % 64 = b := by omega
    simp only [decodeB64, sixVal_b64Char _ h1, sixVal_b64Char _ h2, ihr, hval]

theorem atob_btoa (bs : List Nat) (h : ∀ b ∈ bs, b < 256) :
    atob (btoa bs) = some bs := by
  show decodeB64 (bs.flatMap fun b => [b64Char (b / 64), b64Char (b % 64)]) =
    some bs
  exact decodeB64_pairs bs h

theorem btoa_alphabet (bs : List Nat) :
    ∀ c ∈ (btoa bs).data, Extension.isBase64Char c = true := by
  intro c hc
  simp only [btoa, List.mem_flatMap] at hc
  obtain ⟨b, _, hb⟩ := hc
  simp only [List.mem_cons, List.not_mem_nil, or_false] at hb
  rcases hb with h | h <;> subst h <;> exact isBase64Char_b64Char _

theorem btoa_length (bs : List Nat) : bs.length ≤ (btoa bs).length := by
  show bs.length ≤
    (bs.flatMap fun b => [b64Char (b / 64), b64Char (b % 64)]).length
  induction bs with
  | nil => simp
  | cons b rest ih =>
    rw [List.flatMap_cons]
    simp only [List.length_append, List.length_cons, List.length_nil]
    omega

/-- The toy cipher's 16-byte tag: fifteen zero bytes and a checksum
binding the key, the IV and the message. -/
def gcmTag (k : Nat) (iv m : List Nat) : List Nat :=
  List.replicate 15 0 ++ [(k + iv.sum + m.sum) % 256]

/-- Toy authenticated encryption: byte-wise shift by the key, then tag. -/
def gcmEncrypt (k : Nat) (iv m : List Nat) : List Nat :=
  m.map (fun b => (b + k) % 256) ++ gcmTag k iv m

/-- Toy authenticated decryption: unshift the body, then accept only if
re-encryption reproduces the ciphertext exactly (perfect authentication). -/
def gcmDecrypt (k : Nat) (iv c : List Nat) : Option (List Nat) :=
  if c.length < 16 then none
  else
    let body := c.take (c.length - 16)
    let m := body.map (fun b => (b + 256 - k % 256) % 256)
    if gcmEncrypt k iv m = c then some m else none

theorem gcmTag_length (k : Nat) (iv m : List Nat) :
    (gcmTag k iv m).length = 16 := by
  simp [gcmTag]

theorem gcmEncrypt_length (k : Nat) (iv m : List Nat) :
    (gcmEncrypt k iv m).length = m.length + 16 := by
  simp [gcmEncrypt, gcmTag]

theorem gcmEncrypt_bytes (k : Nat) (iv m : List Nat) :
    ∀ b ∈ gcmEncrypt k iv m, b < 256 := by
  intro b hb
  simp only [gcmEncrypt, gcmTag, List.mem_append, List.mem_map,
    List.mem_replicate, List.mem_cons, List.not_mem_nil, or_false] at hb
  rcases hb with ⟨x, _, hx⟩ | ⟨_, h⟩ | h <;> omega

theorem gcmDecrypt_gcmEncrypt (k : Nat) (iv m : List Nat)
    (h : ∀ b ∈ m, b < 256) : gcmDecrypt k iv (gcmEncrypt k iv m) = some m := by
  have hlen := gcmEncrypt_length k iv m
  have hbody : (gcmEncrypt k iv m).take ((gcmEncrypt k iv m).length - 16) =
      m.map (fun b => (b + k) % 256) := by
    rw [hlen, Nat.add_sub_cancel, gcmEncrypt,
      List.take_append_of_le_length (by simp), List.take_of_length_le (by simp)]
  have hm : (m.map (fun b => (b + k) % 256)).map
      (fun b => (b + 256 - k % 256) % 256) = m := by
    rw [List.map_map]
    conv_rhs => rw [← List.map_id m]
    refine List.map_congr_left ?_
    intro b hb
    have hb256 := h b hb
    simp only [Function.comp_apply, id_eq]
    omega
  rw [gcmDecrypt, if_neg (by omega)]
  simp [hbody, hm]

end Toy

/-- The concrete platform instance assembled from the toy primitives. -/
def toyPlatform : CryptoPlatform Nat :=
  ⟨fun p s i => p.length + s.length + i,
    Toy.gcmEncrypt, Toy.gcmDecrypt, Toy.textEncode, Toy.textDecode,
    Toy.btoa, Toy.atob,
    Toy.gcmDecrypt_gcmEncrypt, Toy.gcmEncrypt_length, Toy.gcmEncrypt_bytes,
    Toy.textDecode_textEncode, Toy.textEncode_bytes,
    Toy.atob_btoa, Toy.btoa_alphabet, Toy.btoa_length⟩

/-- A stored record with four calls recorded at time 0 for
`fetchModels` — one slot below that category's cap of 5. -/
def fourAtZero : RateData :=
  fun a => if a = "fetchModels" then [0, 0, 0, 0] else []

/-- A stored record with five calls recorded at time 0 for
`fetchModels` — exactly at that category's cap. -/
def fiveAtZero : RateData :=
  fun a => if a = "fetchModels" then [0, 0, 0, 0, 0] else []

/-- A stored record with five `fetchModels` calls at times 0–4. -/
def fiveSpread : RateData :=
  fun a => if a = "fetchModels" then [0, 1, 2, 3, 4] else []

/-- A concrete 12-byte IV for evaluating the theorems. -/
def ivZeros : List Nat := List.replicate 12 0

/-- A stored record holding exactly the given timestamps for
`fetchModels` and nothing for any other category. -/
def dataAfter (recorded : List Nat) : RateData :=
  fun a => if a = "fetchModels" then recorded else []

/-! ### Helper lemmas -/

theorem checkRateLimit_allow (now : Nat) (a : String) (d : RateData)
    (l : List Nat) (mx w : Nat) (hlim : getLimit a = ⟨mx, w⟩)
    (hd : d a = l) (hin : ∀ t ∈ l, now - t < w) (hlen : l.length < mx) :
    checkRateLimit now a d =
      (⟨true, none⟩, fun x => if x = a then l ++ [now] else d x) := by
  have hfilter : l.filter (fun t => now - t < w) = l :=
    List.filter_eq_self.mpr fun t ht => decide_eq_true (hin t ht)
  simp only [checkRateLimit, hlim, hd]
  rw [hfilter, if_neg (by omega)]

theorem checkRateLimit_reject (now : Nat) (a : String) (d : RateData)
    (l : List Nat) (mx w : Nat) (hlim : getLimit a = ⟨mx, w⟩)
    (hd : d a = l) (hin : ∀ t ∈ l, now - t < w) (hlen : mx ≤ l.length) :
    checkRateLimit now a d =
      (⟨false, some ((w - (now - l.headD 0) + 999) / 1000)⟩, d) := by
  have hfilter : l.filter (fun t => now - t < w) = l :=
    List.filter_eq_self.mpr fun t ht => decide_eq_true (hin t ht)
  simp only [checkRateLimit, hlim, hd]
  rw [hfilter, if_pos hlen]

theorem checkRateLimit_allowed_result (now : Nat) (a : String) (d : RateData)
    (h : (checkRateLimit now a d).1.allowed = true) :
    (checkRateLimit now a d).1 = ⟨true, none⟩ := by
  by_cases hc : (getLimit a).max ≤
      ((d a).filter (fun t => now - t < (getLimit a).window)).length
  · simp [checkRateLimit, hc] at h
  · simp [checkRateLimit, hc]

theorem fm_step_allow (now : Nat) (l : List Nat)
    (hin : ∀ t ∈ l, now - t < 60000) (hlen : l.length < 5) :
    checkRateLimit now "fetchModels" (dataAfter l) =
      (⟨true, none⟩, dataAfter (l ++ [now])) := by
  rw [checkRateLimit_allow now "fetchModels" (dataAfter l) l 5 60000 rfl
    (by simp [dataAfter]) hin hlen]
  refine congrArg _ (funext fun x => ?_)
  by_cases hx : x = "fetchModels" <;> simp [dataAfter, hx]

theorem fm_step_reject (now : Nat) (l : List Nat)
    (hin : ∀ t ∈ l, now - t < 60000) (hlen : 5 ≤ l.length) :
    checkRateLimit now "fetchModels" (dataAfter l) =
      (⟨false, some ((60000 - (now - l.headD 0) + 999) / 1000)⟩,
        dataAfter l) :=
  checkRateLimit_reject now "fetchModels" (dataAfter l) l 5 60000 rfl
    (by simp [dataAfter]) hin hlen

theorem emptyRateData_eq : emptyRateData = dataAfter [] :=
  funext fun x => by by_cases hx : x = "fetchModels" <;>
    simp [emptyRateData, dataAfter, hx]

/-! ### Claim theorems -/

/-- C4: a rejected `checkRateLimit` call leaves the persisted timestamp
record entirely unchanged — no timestamp is appended and no storage
write occurs, so an immediately repeated check observes the same
recorded count. -/
theorem rejected_call_keeps_state (now : Nat) (actionType : String)
    (data : RateData)
    (h : (checkRateLimit now actionType data).1.allowed = false) :
    (checkRateLimit now actionType data).2 = data := by
  by_cases hc : (getLimit actionType).max ≤
      ((data actionType).filter
        (fun t => now - t < (getLimit actionType).window)).length
  · simp [checkRateLimit, hc]
  · simp [checkRateLimit, hc] at h

theorem rejected_call_keeps_state_witness :
    (checkRateLimit 30000 "fetchModels" fiveAtZero).1.allowed = false ∧
    (checkRateLimit 30000 "fetchModels" fiveAtZero).2 = fiveAtZero :=
  ⟨by decide, rejected_call_keeps_state 30000 "fetchModels" fiveAtZero
    (by decide)⟩

/-- C9: a `checkRateLimit` call for one category modifies only that
category's timestamp list: every other category reads back exactly what
it held before the call. -/
theorem checkRateLimit_frame (now : Nat) (actionType : String)
    (data : RateData) (y : String) (h : y ≠ actionType) :
    (checkRateLimit now actionType data).2 y = data y := by
  by_cases hc : (getLimit actionType).max ≤
      ((data actionType).filter
        (fun t => now - t < (getLimit actionType).window)).length
  · simp [checkRateLimit, hc]
  · simp [checkRateLimit, hc, h]

theorem checkRateLimit_frame_witness :
    "general" ≠ "fetchModels" ∧
    (checkRateLimit 7 "fetchModels" fourAtZero).2 "general" =
      fourAtZero "general" :=
  ⟨by decide, checkRateLimit_frame 7 "fetchModels" fourAtZero "general"
    (by decide)⟩

/-- C10: `decryptApiKey` is total on the empty (falsy) input: the
internal validation throw is caught by the backward-compatibility
fallback and the input is returned unchanged. -/
theorem decrypt_empty_input {Key : Type} (C : CryptoPlatform Key)
    (extensionId : String) : decryptApiKey C extensionId "" = "" := by
  simp [decryptApiKey]

/-- C6: any string shorter than 20 characters or containing a character
outside the base64 alphabet is classified as a legacy secret and
returned unchanged — for every platform and identity, so no key
derivation or decryption can influence the result. -/
theorem legacy_passthrough {Key : Type} (C : CryptoPlatform Key)
    (extensionId : String) (s : String)
    (h : s.length < 20 ∨ s.data.all isBase64Char = false) :
    decryptApiKey C extensionId s = s := by
  rcases eq_or_ne s "" with he | he
  · subst he; simp [decryptApiKey]
  · have hc : (decide (s.length < 20) || !(s.data.all isBase64Char)) = true := by
      rcases h with h | h <;> simp [h]
    rw [decryptApiKey, if_neg he, if_pos hc]

theorem legacy_passthrough_witness :
    ((("sk-plain").length < 20 ∨
      ("sk-plain").data.all isBase64Char = false)) ∧
    decryptApiKey toyPlatform "installation-a" "sk-plain" = "sk-plain" :=
  ⟨Or.inl (by decide),
    legacy_passthrough toyPlatform "installation-a" "sk-plain"
      (Or.inl (by decide))⟩

/-- C8: if the persistence layer is unreachable, `checkRateLimit` fails
open: a failed storage read yields `{allowed: true}` with no state, and
a failed storage write after an admitted call still yields
`{allowed: true}` with the stored record unchanged. -/
theorem checkRateLimit_fails_open (now : Nat) (actionType : String)
    (setOk : Bool) (d : RateData)
    (hallow : (checkRateLimit now actionType d).1.allowed = true) :
    checkRateLimitStore now actionType none setOk = (⟨true, none⟩, none) ∧
    checkRateLimitStore now actionType (some d) false =
      (⟨true, none⟩, some d) := by
  refine ⟨rfl, ?_⟩
  have h1 := checkRateLimit_allowed_result now actionType d hallow
  simp [checkRateLimitStore, h1]

theorem checkRateLimit_fails_open_witness :
    (checkRateLimit 3 "general" emptyRateData).1.allowed = true ∧
    checkRateLimitStore 3 "general" none true = (⟨true, none⟩, none) ∧
    checkRateLimitStore 3 "general" (some emptyRateData) false =
      (⟨true, none⟩, some emptyRateData) :=
  ⟨by decide, checkRateLimit_fails_open 3 "general" true emptyRateData
    (by decide)⟩

/-- C2: `decryptApiKey` never propagates an error: for every input
string, either it returns the input unchanged (all failure paths —
falsy input, shape heuristic, base64 decode error, authentication
failure on wrong key or tampered ciphertext) or the authenticated
decryption genuinely succeeded and the decoded plaintext is returned. -/
theorem decrypt_never_throws {Key : Type} (C : CryptoPlatform Key)
    (extensionId : String) (s : String) :
    decryptApiKey C extensionId s = s ∨
    ∃ combined decrypted, C.atob s = some combined ∧
      C.gcmDecrypt (getEncryptionKey C extensionId)
        (combined.take 12) (combined.drop 12) = some decrypted ∧
      decryptApiKey C extensionId s = C.textDecode decrypted := by
  rcases eq_or_ne s "" with he | he
  · subst he; left; simp [decryptApiKey]
  by_cases hh : (decide (s.length < 20) || !(s.data.all isBase64Char)) = true
  · left; rw [decryptApiKey, if_neg he, if_pos hh]
  cases hatob : C.atob s with
  | none => left; simp [decryptApiKey, he, hh, hatob]
  | some combined =>
    cases hdec : C.gcmDecrypt (getEncryptionKey C extensionId)
        (combined.take 12) (combined.drop 12) with
    | none => left; simp [decryptApiKey, he, hh, hatob, hdec]
    | some decrypted =>
      right
      exact ⟨combined, decrypted, rfl, hdec,
        by simp [decryptApiKey, he, hh, hatob, hdec]⟩

/-- C1: encrypting a non-empty secret (fresh 12-byte IV, PBKDF2-derived
key from the installation identity and the fixed constants, AES-GCM,
IV prepended, base64) and decrypting under the same installation
identity returns the original secret. -/
theorem encrypt_decrypt_roundtrip {Key : Type} (C : CryptoPlatform Key)
    (extensionId : String) (iv : List Nat) (s : String)
    (hs : s ≠ "") (hiv : iv.length = 12) (hivb : ∀ b ∈ iv, b < 256) :
    ∃ e, encryptApiKey C extensionId iv s = Except.ok e ∧
      decryptApiKey C extensionId e = s := by
  refine ⟨C.btoa (iv ++ C.gcmEncrypt (getEncryptionKey C extensionId) iv
    (C.textEncode s)), ?_, ?_⟩
  · rw [encryptApiKey, if_neg hs]
  · have hctlen := C.gcm_length (getEncryptionKey C extensionId) iv
      (C.textEncode s)
    have hclen : 20 ≤ (iv ++ C.gcmEncrypt (getEncryptionKey C extensionId)
        iv (C.textEncode s)).length := by
      rw [List.length_append, hiv]
      omega
    have helen : 20 ≤ (C.btoa (iv ++ C.gcmEncrypt
        (getEncryptionKey C extensionId) iv (C.textEncode s))).length := by
      have := C.b64_length_ge (iv ++ C.gcmEncrypt
        (getEncryptionKey C extensionId) iv (C.textEncode s))
      omega
    have hene : C.btoa (iv ++ C.gcmEncrypt (getEncryptionKey C extensionId)
        iv (C.textEncode s)) ≠ "" := by
      intro h0
      rw [h0] at helen
      simp at helen
    have halpha : (C.btoa (iv ++ C.gcmEncrypt
        (getEncryptionKey C extensionId) iv
          (C.textEncode s))).data.all isBase64Char = true :=
      List.all_eq_true.mpr fun c hc => C.b64_alphabet _ c hc
    have hbytes : ∀ b ∈ iv ++ C.gcmEncrypt (getEncryptionKey C extensionId)
        iv (C.textEncode s), b < 256 := by
      intro b hb
      rcases List.mem_append.mp hb with h0 | h0
      · exact hivb b h0
      · exact C.gcm_bytes _ iv _ b h0
    have hatob := C.b64_roundtrip _ hbytes
    have htake : (iv ++ C.gcmEncrypt (getEncryptionKey C extensionId) iv
        (C.textEncode s)).take 12 = iv := by
      rw [← hiv, List.take_left]
    have hdrop : (iv ++ C.gcmEncrypt (getEncryptionKey C extensionId) iv
        (C.textEncode s)).drop 12 =
        C.gcmEncrypt (getEncryptionKey C extensionId) iv (C.textEncode s) := by
      rw [← hiv, List.drop_left]
    rw [decryptApiKey, if_neg hene, if_neg (by simp [halpha]; omega)]
    simp only [hatob, htake, hdrop,
      C.gcm_roundtrip (getEncryptionKey C extensionId) iv (C.textEncode s)
        (C.text_bytes s),
      C.text_roundtrip]

theorem encrypt_decrypt_roundtrip_witness :
    ∃ e, encryptApiKey toyPlatform "installation-b" ivZeros "secret" =
      Except.ok e ∧ decryptApiKey toyPlatform "installation-b" e = "secret" :=
  encrypt_decrypt_roundtrip toyPlatform "installation-b" ivZeros "secret"
    (by decide) (by decide) (by decide)

/-- C3: for `fetchModels` (`max=5, window=60000`), five calls within one
window all return `allowed:true`; the sixth within the same window
returns `allowed:false` with
`waitSeconds = ceil((window - (now - oldest)) / 1000)`, strictly
positive and at most 60. -/
theorem rate_limit_boundary (t0 t1 t2 t3 t4 t5 : Nat)
    (h01 : t0 ≤ t1) (h12 : t1 ≤ t2) (h23 : t2 ≤ t3) (h34 : t3 ≤ t4)
    (h45 : t4 ≤ t5) (hwin : t5 - t0 < 60000) :
    (checkSeq [t0, t1, t2, t3, t4, t5] "fetchModels" emptyRateData).1 =
      [⟨true, none⟩, ⟨true, none⟩, ⟨true, none⟩, ⟨true, none⟩,
        ⟨true, none⟩,
        ⟨false, some ((60000 - (t5 - t0) + 999) / 1000)⟩] ∧
    0 < (60000 - (t5 - t0) + 999) / 1000 ∧
    (60000 - (t5 - t0) + 999) / 1000 ≤ 60 := by
  have s1 := fm_step_allow t0 [] (by simp) (by simp)
  have s2 := fm_step_allow t1 [t0]
    (by intro t ht; simp at ht; omega) (by simp)
  have s3 := fm_step_allow t2 [t0, t1]
    (by intro t ht; simp at ht; rcases ht with h | h <;> omega) (by simp)
  have s4 := fm_step_allow t3 [t0, t1, t2]
    (by intro t ht; simp at ht; rcases ht with h | h | h <;> omega)
    (by simp)
  have s5 := fm_step_allow t4 [t0, t1, t2, t3]
    (by intro t ht; simp at ht; rcases ht with h | h | h | h <;> omega)
    (by simp)
  have s6 := fm_step_reject t5 [t0, t1, t2, t3, t4]
    (by intro t ht; simp at ht; rcases ht with h | h | h | h | h <;> omega)
    (by simp)
  refine ⟨?_, by omega, by omega⟩
  rw [emptyRateData_eq]
  simp only [checkSeq, s1, s2, s3, s4, s5, s6, List.nil_append,
    List.cons_append, List.headD_cons]

theorem rate_limit_boundary_witness :
    (checkSeq [0, 1, 2, 3, 4, 5] "fetchModels" emptyRateData).1 =
      [⟨true, none⟩, ⟨true, none⟩, ⟨true, none⟩, ⟨true, none⟩,
        ⟨true, none⟩,
        ⟨false, some ((60000 - (5 - 0) + 999) / 1000)⟩] ∧
    0 < (60000 - (5 - 0) + 999) / 1000 ∧
    (60000 - (5 - 0) + 999) / 1000 ≤ 60 :=
  rate_limit_boundary 0 1 2 3 4 5 (by decide) (by decide) (by decide)
    (by decide) (by decide) (by decide)

/-- C5: the admission decision is exactly the in-window count check
(older timestamps are purged before the count is compared to the cap),
and with five recorded `fetchModels` calls whose oldest is at `t0`, a
call at `t0 + 60001` is allowed again: the expired timestamp no longer
counts. -/
theorem window_sliding (t0 : Nat) (ts : List Nat) (d : RateData)
    (hd : d "fetchModels" = t0 :: ts) (hlen : ts.length = 4) :
    (∀ now a data, ((checkRateLimit now a data).1.allowed = true ↔
      ((data a).filter
        (fun t => now - t < (getLimit a).window)).length <
        (getLimit a).max)) ∧
    (checkRateLimit (t0 + 60001) "fetchModels" d).1 = ⟨true, none⟩ := by
  constructor
  · intro now a data
    by_cases hc : (getLimit a).max ≤
        ((data a).filter (fun t => now - t < (getLimit a).window)).length
    · simp only [checkRateLimit, if_pos hc]
      constructor
      · intro h0
        cases h0
      · intro h1
        exfalso
        omega
    · simp only [checkRateLimit, if_neg hc]
      constructor
      · intro _
        omega
      · intro _
        trivial
  · have hflt : ((d "fetchModels").filter
        (fun t => t0 + 60001 - t < 60000)).length ≤ 4 := by
      have h0 : ¬((decide (t0 + 60001 - t0 < 60000)) = true) := by
        simp only [decide_eq_true_eq]
        omega
      rw [hd, List.filter_cons, if_neg h0]
      calc (ts.filter fun t => t0 + 60001 - t < 60000).length
          ≤ ts.length := List.length_filter_le _ _
        _ = 4 := hlen
    have hl : getLimit "fetchModels" = ⟨5, 60000⟩ := rfl
    simp only [checkRateLimit, hl]
    rw [if_neg (by omega)]

theorem window_sliding_witness :
    fiveSpread "fetchModels" = 0 :: [1, 2, 3, 4] ∧
    (checkRateLimit (0 + 60001) "fetchModels" fiveSpread).1 =
      ⟨true, none⟩ :=
  ⟨by decide,
    (window_sliding 0 [1, 2, 3, 4] fiveSpread (by decide) (by decide)).2⟩

/-- C7 (the code lacks this): `checkRateLimit` has no per-category
critical section.  Two calls that both read the stored record before
either writes — the interleaving of two concurrent calls across the
`await` suspension points — are both admitted with only one slot
remaining (four of five used), while serialized execution rejects the
second. -/
theorem concurrent_checks_not_serialized :
    (checkRateLimit 1 "fetchModels" fourAtZero).1.allowed = true ∧
    (checkRateLimit 2 "fetchModels" fourAtZero).1.allowed = true ∧
    (checkRateLimit 2 "fetchModels"
      (checkRateLimit 1 "fetchModels" fourAtZero).2).1.allowed = false := by
  refine ⟨by decide, by decide, by decide⟩

end Extension
